import Mathlib

/-!
Shallow embedding of the overlap-computation core of the `te_density`
repository (`transposon/overlap.py`, with the shape check from
`transposon/density.py`), together with proofs about the claims of its
specification.

Genomic coordinates are embedded as `ℤ`; the numpy vectors of TE start/stop
coordinates are embedded as `List ℤ`; a fallible numpy elementwise operation
(which raises on non-broadcastable shapes) returns `Option`.
-/

namespace TeDensity

/-- Gene record.  Modelled from the spec: the class `GeneDatum` lives in
`transposon/data.py`, which is not part of the sources; the spec describes it
as one gene with `start`, `stop` (`uint32`, `stop ≥ start`) and a unique
`name`. -/
structure GeneDatum where
  name : String
  start : ℤ
  stop : ℤ

namespace GeneDatum

/-- Modelled from the spec: `win_length(window)` — "the *effective* window
size, clamped so the left window never extends past coordinate 0 (when the
naive window start would be negative, the effective window length is
truncated to `gene.start − 0`)".  The naive window start is
`gene.start − window`. -/
def win_length (g : GeneDatum) (window : ℤ) : ℤ :=
  if g.start - window < 0 then g.start else window

/-- Modelled from the spec: `left_window_start(window)` —
`w0 = max(0, gene.start − effective_window)`. -/
def left_win_start (g : GeneDatum) (w_len : ℤ) : ℤ :=
  max 0 (g.start - w_len)

/-- Modelled from the spec: `left_window_stop = start − 1` (exclusive of the
gene). -/
def left_win_stop (g : GeneDatum) : ℤ :=
  g.start - 1

/-- Modelled from the spec: `right_window_start = stop + 1`. -/
def right_win_start (g : GeneDatum) : ℤ :=
  g.stop + 1

/-- Modelled from the spec: `right_window_stop(window)` — the right window
ends `window` base pairs past the gene stop, `w1 = gene.stop + window`,
applied to whatever window length the caller passes in. -/
def right_win_stop (g : GeneDatum) (w_len : ℤ) : ℤ :=
  g.stop + w_len

end GeneDatum

/-- TE collection.  Modelled from the spec: the class `TransposonData` lives
in `transposon/data.py`, which is not part of the sources; the spec describes
it as parallel arrays `starts`, `stops` (and a derived `lengths`) of `uint32`
with `number_elements = len(starts)`. -/
structure TransposonData where
  starts : List ℤ
  stops : List ℤ
  lengths : List ℤ

/-- Modelled from the spec: `number_elements = len(starts)`. -/
def TransposonData.number_elements (t : TransposonData) : ℕ :=
  t.starts.length

/-- Numpy elementwise combination of two 1-D arrays, with numpy's broadcast
rule: the lengths must be equal, or one of the arrays must have length one
(and is then repeated); any other length pair raises. -/
def npBroadcast (f : ℤ → ℤ → ℤ) (xs ys : List ℤ) : Option (List ℤ) :=
  if xs.length = ys.length then some (List.zipWith f xs ys)
  else
    match xs, ys with
    | [x], ys => some (ys.map (fun y => f x y))
    | xs, [y] => some (xs.map (fun x => f x y))
    | _, _ => none

namespace Overlap

/-- `Overlap.left` from `transposon/overlap.py`: overlap of each TE with the
window to the left of the gene.  `np.maximum`/`np.minimum` of a scalar and an
array map over the array; the array-array subtraction broadcasts. -/
def left (gene_datum : GeneDatum) (transposons : TransposonData) (window : ℤ) :
    Option (List ℤ) :=
  let w_len := gene_datum.win_length window
  let w_0 := gene_datum.left_win_start w_len
  let w_1 := gene_datum.left_win_stop
  let lower_bound := transposons.starts.map (fun s => max w_0 s)
  let upper_bound := transposons.stops.map (fun s => min w_1 s)
  (npBroadcast (fun u l => u - l) upper_bound lower_bound).map
    (fun te => te.map (fun d => max 0 (d + 1)))

/-- `Overlap.intra` from `transposon/overlap.py`: overlap of each TE with the
gene body, exactly as the source computes it
(`lower = np.minimum(g_0, stops)`, `upper = np.maximum(g_1, starts)`,
`max(0, lower - upper + 1)` with `g_0 = start`, `g_1 = stop`). -/
def intra (gene_datum : GeneDatum) (transposons : TransposonData) :
    Option (List ℤ) :=
  let g_0 := gene_datum.start
  let g_1 := gene_datum.stop
  let lower_bound := transposons.stops.map (fun s => min g_0 s)
  let upper_bound := transposons.starts.map (fun s => max g_1 s)
  (npBroadcast (fun l u => l - u) lower_bound upper_bound).map
    (fun te => te.map (fun d => max 0 (d + 1)))

/-- `Overlap.right` from `transposon/overlap.py`: overlap of each TE with the
window to the right of the gene.  Note the source computes
`w_len = win_length(window)` and passes it to `right_win_stop`. -/
def right (gene_datum : GeneDatum) (transposons : TransposonData) (window : ℤ) :
    Option (List ℤ) :=
  let w_0 := gene_datum.right_win_start
  let w_len := gene_datum.win_length window
  let w_1 := gene_datum.right_win_stop w_len
  let lower_bound := transposons.starts.map (fun s => max w_0 s)
  let upper_bound := transposons.stops.map (fun s => min w_1 s)
  (npBroadcast (fun u l => u - l) upper_bound lower_bound).map
    (fun te => te.map (fun d => max 0 (d + 1)))

end Overlap

/-- `check_shape` from `transposon/density.py`: raise if the TE collection's
parallel arrays do not all have the same shape. -/
def check_shape (transposon_data : TransposonData) : Except String Unit :=
  if transposon_data.starts.length ≠ transposon_data.stops.length then
    Except.error " input TE missing fields: starts.shape not equal to stops.shape"
  else if transposon_data.starts.length ≠ transposon_data.lengths.length then
    Except.error " input TE missing fields: starts.shape not equal to lengths.shape"
  else
    Except.ok ()

/-- The chromosome's genes.  Modelled from the spec: `GeneData` (in the
absent `transposon/data.py`) exposes gene lookup over one chromosome's worth
of genes. -/
def GeneData := List GeneDatum

/-- Modelled from the spec: `names -> sequence of gene names`. -/
def GeneData.names (genes : GeneData) : List String :=
  List.map GeneDatum.name genes

/-- Modelled from the spec: `get_gene(name) -> GeneDatum`. -/
def GeneData.get_gene (genes : GeneData) (gene_name : String) : Option GeneDatum :=
  List.find? (fun g => g.name == gene_name) genes

/-- A Python `dict` update: later assignments to the same key overwrite
earlier ones. -/
def dictUpd {α : Type} [DecidableEq α] (m : α → Option ℕ) (key : α) (idx : ℕ) :
    α → Option ℕ :=
  fun a => if a = key then some idx else m a

/-- Building a Python `dict` from `enumerate`: insert each element of the
list with its position, in order, starting at position `i`. -/
def dictOfAux {α : Type} [DecidableEq α] (m : α → Option ℕ) (i : ℕ) :
    List α → (α → Option ℕ)
  | [] => m
  | x :: xs => dictOfAux (dictUpd m x i) (i + 1) xs

namespace OverlapData

/-- `OverlapData._filter_gene_names`: yield only the requested names that are
present in the available names (invalid ones are logged and dropped). -/
def _filter_gene_names (gene_names_requested gene_names_available : List String) :
    List String :=
  gene_names_requested.filter (fun nm => decide (nm ∈ gene_names_available))

/-- `OverlapData._filter_windows`: drop a window iff `window < 0` (invalid
ones are logged and dropped). -/
def _filter_windows (windows : List ℤ) : List ℤ :=
  windows.filter (fun window => !(decide (window < 0)))

/-- `OverlapData._map_gene_names_2_indices`:
`{name: idx for idx, name in enumerate(gene_names)}`. -/
def _map_gene_names_2_indices (gene_names : List String) : String → Option ℕ :=
  dictOfAux (fun _ => none) 0 gene_names

/-- `OverlapData._map_windows_2_indices`:
`{win: idx for idx, win in enumerate(windows)}`. -/
def _map_windows_2_indices (windows : List ℤ) : ℤ → Option ℕ :=
  dictOfAux (fun _ => none) 0 windows

end OverlapData

/-- The `_OverlapDataSink` state: the allocated dataset dimensions
(`lr_shape = (n_genes, n_win, n_tes)` for `left`/`right`,
`i_shape = (n_genes, n_tes)` for `intra`) and the dataset contents, indexed
as in `left_right_slice` (gene index, then window index) and `intra_slice`
(gene index); a slice that has never been written holds `none`. -/
structure OverlapSink where
  nGenes : ℕ
  nTes : ℕ
  nWin : ℕ
  left : ℕ → ℕ → Option (List ℤ)
  right : ℕ → ℕ → Option (List ℤ)
  intra : ℕ → Option (List ℤ)

/-- Write one gene/window row of a `left`/`right` dataset
(`sink.left[gene, window, :] = v`). -/
def writeLR (f : ℕ → ℕ → Option (List ℤ)) (gi wi : ℕ) (v : List ℤ) :
    ℕ → ℕ → Option (List ℤ) :=
  fun g w => if g = gi ∧ w = wi then some v else f g w

/-- Write one gene row of the `intra` dataset (`sink.intra[gene, :] = v`). -/
def writeI (f : ℕ → Option (List ℤ)) (gi : ℕ) (v : List ℤ) :
    ℕ → Option (List ℤ) :=
  fun g => if g = gi then some v else f g

namespace OverlapData

/-- Body of the inner loop of `OverlapData.calculate`: compute left and right
overlap for one window and write both at `(g_idx, w_idx)`.  A numpy shape
error or a missing dict key aborts the call (`none`). -/
def processWindow (tes : TransposonData) (gene : GeneDatum) (g_idx : ℕ)
    (w2i : ℤ → Option ℕ) (sink : OverlapSink) (window : ℤ) :
    Option OverlapSink :=
  (Overlap.left gene tes window).bind fun lv =>
    (Overlap.right gene tes window).bind fun rv =>
      (w2i window).bind fun wi =>
        some { sink with
                left := writeLR sink.left g_idx wi lv,
                right := writeLR sink.right g_idx wi rv }

/-- Iterate the inner window loop of `OverlapData.calculate`. -/
def processWindows (tes : TransposonData) (gene : GeneDatum) (g_idx : ℕ)
    (w2i : ℤ → Option ℕ) (sink : OverlapSink) : List ℤ → Option OverlapSink
  | [] => some sink
  | w :: ws =>
      (processWindow tes gene g_idx w2i sink w).bind fun sink' =>
        processWindows tes gene g_idx w2i sink' ws

/-- Body of the outer loop of `OverlapData.calculate`: look the gene up, write
its intra overlap at its index, then run the window loop. -/
def processGene (genes : GeneData) (tes : TransposonData) (windows : List ℤ)
    (g2i : String → Option ℕ) (w2i : ℤ → Option ℕ) (sink : OverlapSink)
    (gene_name : String) : Option OverlapSink :=
  (genes.get_gene gene_name).bind fun gene_datum =>
    (g2i gene_name).bind fun g_idx =>
      (Overlap.intra gene_datum tes).bind fun iv =>
        processWindows tes gene_datum g_idx w2i
          { sink with intra := writeI sink.intra g_idx iv } windows

/-- Iterate the outer gene loop of `OverlapData.calculate`. -/
def processGenes (genes : GeneData) (tes : TransposonData) (windows : List ℤ)
    (g2i : String → Option ℕ) (w2i : ℤ → Option ℕ) (sink : OverlapSink) :
    List String → Option OverlapSink
  | [] => some sink
  | n :: ns =>
      (processGene genes tes windows g2i w2i sink n).bind fun sink' =>
        processGenes genes tes windows g2i w2i sink' ns

/-- `OverlapData.calculate` together with `OverlapData._reset` and the sink
allocation of `_OverlapDataSink.__enter__`: filter the requested gene names
and windows, build the index maps, allocate the datasets with
`n_gene = len(self._gene_names)`, `n_te = transposons.number_elements`,
`n_win = len(self._windows)`, and drive the overlap kernels over the
gene × window cross product. -/
def calculate (genes : GeneData) (tes : TransposonData) (windows : List ℤ)
    (gene_names : List String) : Option OverlapSink :=
  let names_f := _filter_gene_names gene_names (GeneData.names genes)
  let g2i := _map_gene_names_2_indices names_f
  let wins_f := _filter_windows windows
  let w2i := _map_windows_2_indices wins_f
  let init : OverlapSink :=
    { nGenes := names_f.length
      nTes := tes.number_elements
      nWin := wins_f.length
      left := fun _ _ => none
      right := fun _ _ => none
      intra := fun _ => none }
  processGenes genes tes wins_f g2i w2i init names_f

end OverlapData

/-! ### Helper lemmas: dictionaries built from `enumerate` -/

/-- Position of the last occurrence of `a` in a list. -/
def lastOcc {α : Type} [DecidableEq α] (a : α) : List α → Option ℕ
  | [] => none
  | x :: xs =>
    match lastOcc a xs with
    | some j => some (j + 1)
    | none => if a = x then some 0 else none

theorem dictOfAux_apply {α : Type} [DecidableEq α] (l : List α)
    (m : α → Option ℕ) (i : ℕ) (a : α) :
    dictOfAux m i l a =
      match lastOcc a l with
      | some j => some (i + j)
      | none => m a := by
  induction l generalizing m i with
  | nil => simp [dictOfAux, lastOcc]
  | cons x xs ih =>
    show dictOfAux (dictUpd m x i) (i + 1) xs a = _
    rw [ih]
    cases h : lastOcc a xs with
    | some j =>
      simp only [lastOcc, h]
      congr 1
      omega
    | none =>
      simp only [lastOcc, h, dictUpd]
      by_cases hax : a = x <;> simp [hax]

theorem lastOcc_get {α : Type} [DecidableEq α] {a : α} {l : List α} {j : ℕ}
    (h : lastOcc a l = some j) : l.get? j = some a := by
  induction l generalizing j with
  | nil => simp [lastOcc] at h
  | cons x xs ih =>
    cases hx : lastOcc a xs with
    | some j' =>
      simp only [lastOcc, hx] at h
      obtain rfl : j' + 1 = j := by exact_mod_cast congrArg (Option.getD · 0) h
      simpa using ih hx
    | none =>
      simp only [lastOcc, hx] at h
      by_cases hax : a = x
      · simp only [hax, if_pos rfl] at h
        obtain rfl : (0 : ℕ) = j := by exact_mod_cast congrArg (Option.getD · 0) h
        simp [hax]
      · simp [hax] at h

theorem lastOcc_eq_none {α : Type} [DecidableEq α] {a : α} {l : List α} :
    lastOcc a l = none ↔ a ∉ l := by
  induction l with
  | nil => simp [lastOcc]
  | cons x xs ih =>
    simp only [lastOcc]
    cases hx : lastOcc a xs with
    | some j =>
      have hmem : a ∈ xs := List.get?_mem (lastOcc_get hx)
      simp [hmem]
    | none =>
      have hnot : a ∉ xs := ih.mp hx
      by_cases hax : a = x <;> simp [hax, hnot]

theorem lastOcc_isSome {α : Type} [DecidableEq α] {a : α} {l : List α} :
    (lastOcc a l).isSome = true ↔ a ∈ l := by
  cases h : lastOcc a l with
  | none => simp [lastOcc_eq_none.mp h]
  | some j => simp [List.get?_mem (lastOcc_get h)]

theorem lastOcc_last {α : Type} [DecidableEq α] {a : α} {l : List α} {j : ℕ}
    (h : lastOcc a l = some j) : ∀ k, j < k → l.get? k ≠ some a := by
  induction l generalizing j with
  | nil => simp [lastOcc] at h
  | cons x xs ih =>
    intro k hk
    cases hx : lastOcc a xs with
    | some j' =>
      simp only [lastOcc, hx] at h
      obtain rfl : j' + 1 = j := by exact_mod_cast congrArg (Option.getD · 0) h
      cases k with
      | zero => omega
      | succ k' => simpa using ih hx k' (by omega)
    | none =>
      cases k with
      | zero => omega
      | succ k' =>
        intro hmem
        exact (lastOcc_eq_none.mp hx) (List.get?_mem (by simpa using hmem))

theorem get_le_lastOcc {α : Type} [DecidableEq α] {a : α} {l : List α} {j : ℕ}
    (h : l.get? j = some a) : ∃ k, lastOcc a l = some k ∧ j ≤ k := by
  have hmem : a ∈ l := List.get?_mem h
  obtain ⟨k, hk⟩ := Option.isSome_iff_exists.mp (lastOcc_isSome.mpr hmem)
  refine ⟨k, hk, ?_⟩
  by_contra hlt
  exact lastOcc_last hk j (by omega) h

theorem map_gene_names_eq_lastOcc (l : List String) (a : String) :
    OverlapData._map_gene_names_2_indices l a = lastOcc a l := by
  rw [OverlapData._map_gene_names_2_indices, dictOfAux_apply]
  cases lastOcc a l <;> simp

theorem map_windows_eq_lastOcc (l : List ℤ) (a : ℤ) :
    OverlapData._map_windows_2_indices l a = lastOcc a l := by
  rw [OverlapData._map_windows_2_indices, dictOfAux_apply]
  cases lastOcc a l <;> simp

theorem lastOcc_inj {α : Type} [DecidableEq α] {a b : α} {l : List α} {i : ℕ}
    (ha : lastOcc a l = some i) (hb : lastOcc b l = some i) : a = b := by
  have h1 := lastOcc_get ha
  have h2 := lastOcc_get hb
  rw [h1] at h2
  exact Option.some.inj h2

/-! ### Helper lemmas: broadcast and the overlap kernels -/

theorem npBroadcast_eq_zipWith (f : ℤ → ℤ → ℤ) {xs ys : List ℤ}
    (h : xs.length = ys.length) :
    npBroadcast f xs ys = some (List.zipWith f xs ys) := by
  simp [npBroadcast, h]

theorem npBroadcast_isSome (f : ℤ → ℤ → ℤ) (xs ys : List ℤ) :
    (npBroadcast f xs ys).isSome = true ↔
      (xs.length = ys.length ∨ xs.length = 1 ∨ ys.length = 1) := by
  rcases xs with _ | ⟨x, _ | ⟨x', xs⟩⟩ <;>
    rcases ys with _ | ⟨y, _ | ⟨y', ys⟩⟩ <;>
      simp [npBroadcast]

/-- Every element a kernel can return has the form `max 0 (d + 1)`. -/
theorem kernel_output_nonneg {o : Option (List ℤ)} {l : List ℤ}
    (h : o.map (fun te => te.map (fun d => max 0 (d + 1))) = some l) :
    ∀ x ∈ l, 0 ≤ x := by
  obtain ⟨base, _, rfl⟩ := Option.map_eq_some'.mp h
  intro x hx
  obtain ⟨d, _, rfl⟩ := List.mem_map.mp hx
  exact le_max_left 0 (d + 1)

theorem win_length_eq_min (g : GeneDatum) (w : ℤ) :
    g.win_length w = min w g.start := by
  rw [GeneDatum.win_length]
  split <;> omega

theorem left_eq_zipWith (g : GeneDatum) (t : TransposonData) (w : ℤ)
    (hlen : t.starts.length = t.stops.length) :
    Overlap.left g t w =
      some (List.zipWith
        (fun te_stop te_start =>
          max 0 (min (g.left_win_stop) te_stop -
            max (g.left_win_start (g.win_length w)) te_start + 1))
        t.stops t.starts) := by
  rw [Overlap.left]
  rw [npBroadcast_eq_zipWith _ (by simp [hlen])]
  simp [List.zipWith_map, List.map_zipWith]

theorem intra_eq_zipWith (g : GeneDatum) (t : TransposonData)
    (hlen : t.starts.length = t.stops.length) :
    Overlap.intra g t =
      some (List.zipWith
        (fun te_stop te_start => max 0 (min g.start te_stop - max g.stop te_start + 1))
        t.stops t.starts) := by
  rw [Overlap.intra]
  rw [npBroadcast_eq_zipWith _ (by simp [hlen])]
  simp [List.zipWith_map, List.map_zipWith]

theorem right_eq_zipWith (g : GeneDatum) (t : TransposonData) (w : ℤ)
    (hlen : t.starts.length = t.stops.length) :
    Overlap.right g t w =
      some (List.zipWith
        (fun te_stop te_start =>
          max 0 (min (g.right_win_stop (g.win_length w)) te_stop -
            max g.right_win_start te_start + 1))
        t.stops t.starts) := by
  rw [Overlap.right]
  rw [npBroadcast_eq_zipWith _ (by simp [hlen])]
  simp [List.zipWith_map, List.map_zipWith]

theorem left_isSome (g : GeneDatum) (t : TransposonData) (w : ℤ)
    (hlen : t.starts.length = t.stops.length) :
    (Overlap.left g t w).isSome = true := by
  rw [left_eq_zipWith g t w hlen]
  rfl

theorem intra_isSome (g : GeneDatum) (t : TransposonData)
    (hlen : t.starts.length = t.stops.length) :
    (Overlap.intra g t).isSome = true := by
  rw [intra_eq_zipWith g t hlen]
  rfl

theorem right_isSome (g : GeneDatum) (t : TransposonData) (w : ℤ)
    (hlen : t.starts.length = t.stops.length) :
    (Overlap.right g t w).isSome = true := by
  rw [right_eq_zipWith g t w hlen]
  rfl

/-! ### Claim C1 -/

/-- C1: at the spec's concrete scenario (gene `start=100, stop=200`, TE
`start=180, stop=220`) the source's `Overlap.intra` returns `0`, while the
claimed formula `max(0, min(gene.stop, te.stop) − max(gene.start, te.start) + 1)`
gives `21`: the source swaps the roles of the gene's start and stop
(`min(start, stops) − max(stop, starts)`), which is nonpositive for every
gene longer than one base. -/
theorem intra_swapped_bounds_eval :
    Overlap.intra ⟨"g", 100, 200⟩ ⟨[180], [220], [41]⟩ = some [0] ∧
      max 0 (min (200 : ℤ) 220 - max 100 180 + 1) = 21 := by
  constructor
  · rfl
  · decide

/-! ### Claim C2 -/

/-- C2 counterexample: a TE collection whose `starts` has length 3 and
`stops` has length 1 is a shape mismatch, yet all three kernel operations
return a value (numpy broadcasts the length-1 array) instead of failing. -/
theorem kernels_ignore_shape_mismatch_cex :
    (TransposonData.mk [10, 20, 30] [15] [5, 5, 5]).starts.length ≠
        (TransposonData.mk [10, 20, 30] [15] [5, 5, 5]).stops.length ∧
      (Overlap.left ⟨"g", 100, 200⟩ ⟨[10, 20, 30], [15], [5, 5, 5]⟩ 50).isSome = true ∧
      (Overlap.intra ⟨"g", 100, 200⟩ ⟨[10, 20, 30], [15], [5, 5, 5]⟩).isSome = true ∧
      (Overlap.right ⟨"g", 100, 200⟩ ⟨[10, 20, 30], [15], [5, 5, 5]⟩ 50).isSome = true := by
  refine ⟨by decide, ?_, ?_, ?_⟩ <;> rfl

/-- C2 (amended): the overlap kernels perform no shape validation.  Each of
`left`, `intra`, `right` returns a result exactly when the two arrays
broadcast (equal lengths, or one of them has length 1) — so an unequal-length
collection with a length-1 array produces a value rather than an error, and
only a non-broadcastable pair fails, during the arithmetic.  The explicit
shape check is `check_shape` in `density.py`, which does error on unequal
`starts`/`stops` shapes. -/
theorem kernels_broadcast_iff (g : GeneDatum) (t : TransposonData) (w : ℤ) :
    ((Overlap.left g t w).isSome = true ↔
        (t.starts.length = t.stops.length ∨ t.starts.length = 1 ∨ t.stops.length = 1)) ∧
      ((Overlap.intra g t).isSome = true ↔
        (t.starts.length = t.stops.length ∨ t.starts.length = 1 ∨ t.stops.length = 1)) ∧
      ((Overlap.right g t w).isSome = true ↔
        (t.starts.length = t.stops.length ∨ t.starts.length = 1 ∨ t.stops.length = 1)) ∧
      (t.starts.length ≠ t.stops.length →
        ∃ msg, check_shape t = Except.error msg) := by
  refine ⟨?_, ?_, ?_, ?_⟩
  · rw [Overlap.left, Option.isSome_map', npBroadcast_isSome]
    simp only [List.length_map]
    tauto
  · rw [Overlap.intra, Option.isSome_map', npBroadcast_isSome]
    simp only [List.length_map]
    tauto
  · rw [Overlap.right, Option.isSome_map', npBroadcast_isSome]
    simp only [List.length_map]
    tauto
  · intro hne
    refine ⟨" input TE missing fields: starts.shape not equal to stops.shape", ?_⟩
    rw [check_shape, if_pos hne]

/-- Witness for C2 (amended) at a concrete mismatched collection. -/
theorem kernels_broadcast_iff_witness :
    (Overlap.intra ⟨"g", 100, 200⟩ ⟨[10, 20, 30], [15], [5, 5, 5]⟩).isSome = true ∧
      ∃ msg, check_shape ⟨[10, 20, 30], [15], [5, 5, 5]⟩ = Except.error msg :=
  ⟨(kernels_broadcast_iff ⟨"g", 100, 200⟩ ⟨[10, 20, 30], [15], [5, 5, 5]⟩ 50).2.1.mpr
      (by decide),
    (kernels_broadcast_iff ⟨"g", 100, 200⟩ ⟨[10, 20, 30], [15], [5, 5, 5]⟩ 50).2.2.2
      (by decide)⟩

/-! ### Claim C3 -/

/-- C3 counterexample: a requested window of `0` passes the source's filter
(`if window < 0`), so `0` does appear in the filtered window list, contrary
to "a window ≤ 0 is dropped". -/
theorem filter_windows_keeps_zero_cex :
    OverlapData._filter_windows [0] = [0] ∧
      (0 : ℤ) ∈ OverlapData._filter_windows [0] := by
  constructor
  · rfl
  · decide

/-- C3 (amended): the filter drops exactly the strictly negative windows: a
window appears in the filtered list iff it was requested and is `≥ 0` — in
particular a requested window of `0` is kept, not dropped. -/
theorem filter_windows_mem (windows : List ℤ) (w : ℤ) :
    w ∈ OverlapData._filter_windows windows ↔ w ∈ windows ∧ 0 ≤ w := by
  rw [OverlapData._filter_windows, List.mem_filter]
  simp [Int.not_lt]

/-! ### Claim C4 -/

/-- C4: for a gene with `start=50, stop=60` and requested window `100`, the
source computes `w_len = win_length(100) = 50` (the *left*-truncated length)
and passes it to `right_win_stop`, giving a right region `[61, 110]` instead
of the claimed `[61, 160]`; the TE `[150, 155]` then gets overlap `0` where
the claimed formula gives `6`. -/
theorem right_uses_truncated_window_eval :
    Overlap.right ⟨"g", 50, 60⟩ ⟨[150], [155], [5]⟩ 100 = some [0] ∧
      GeneDatum.win_length ⟨"g", 50, 60⟩ 100 = 50 ∧
      GeneDatum.right_win_stop ⟨"g", 50, 60⟩ 50 = 110 ∧
      max 0 (min ((60 : ℤ) + 100) 155 - max (60 + 1) 150 + 1) = 6 := by
  refine ⟨rfl, by decide, by decide, by decide⟩

/-! ### Claim C7 -/

/-- C7: for every gene, TE collection with equal-length arrays and positive
window, `Overlap.left` returns, at each index, exactly
`max(0, min(w1, te_stop) − max(w0, te_start) + 1)` with `w1 = start − 1` and
`w0 = max(0, start − effective_window)`, where the effective window is the
requested window truncated at coordinate 0 (`min window start`). -/
theorem left_formula_truncated_window (g : GeneDatum) (t : TransposonData)
    (w : ℤ) (hw : 0 < w) (hlen : t.starts.length = t.stops.length) :
    Overlap.left g t w =
      some (List.zipWith
        (fun te_stop te_start =>
          max 0 (min (g.start - 1) te_stop -
            max (max 0 (g.start - min w g.start)) te_start + 1))
        t.stops t.starts) := by
  rw [left_eq_zipWith g t w hlen, GeneDatum.left_win_stop, GeneDatum.left_win_start,
    win_length_eq_min]

/-- Witness for C7: the spec's truncation example — a gene with `start = 50`,
requested window `100`: effective left window length is `50`, region
`[0, 49]`; a TE `[10, 69]` overlaps it in 40 bases. -/
theorem left_formula_truncated_window_witness :
    (0 : ℤ) < 100 ∧
      (⟨[10], [69], [60]⟩ : TransposonData).starts.length =
        (⟨[10], [69], [60]⟩ : TransposonData).stops.length ∧
      GeneDatum.win_length ⟨"g", 50, 60⟩ 100 = 50 ∧
      Overlap.left ⟨"g", 50, 60⟩ ⟨[10], [69], [60]⟩ 100 =
        some (List.zipWith
          (fun te_stop te_start =>
            max 0 (min ((⟨"g", 50, 60⟩ : GeneDatum).start - 1) te_stop -
              max (max 0 ((⟨"g", 50, 60⟩ : GeneDatum).start -
                min 100 (⟨"g", 50, 60⟩ : GeneDatum).start)) te_start + 1))
          [69] [10]) :=
  ⟨by decide, by decide, by decide,
    left_formula_truncated_window ⟨"g", 50, 60⟩ ⟨[10], [69], [60]⟩ 100
      (by decide) (by decide)⟩

/-! ### Claim C8 -/

/-- C8: for every gene, every TE collection with equal-length arrays, and
every window, every element of the vectors returned by `left`, `intra` and
`right` is `≥ 0`. -/
theorem overlap_values_nonneg (g : GeneDatum) (t : TransposonData) (w : ℤ)
    (hlen : t.starts.length = t.stops.length) :
    (∀ l, Overlap.left g t w = some l → ∀ x ∈ l, 0 ≤ x) ∧
      (∀ l, Overlap.intra g t = some l → ∀ x ∈ l, 0 ≤ x) ∧
      (∀ l, Overlap.right g t w = some l → ∀ x ∈ l, 0 ≤ x) := by
  refine ⟨fun l h => ?_, fun l h => ?_, fun l h => ?_⟩
  · exact kernel_output_nonneg h
  · exact kernel_output_nonneg h
  · exact kernel_output_nonneg h

/-! ### Helper lemmas: the calculate loops -/

theorem get_gene_isSome {genes : GeneData} {n : String}
    (h : n ∈ GeneData.names genes) : (GeneData.get_gene genes n).isSome = true := by
  obtain ⟨gd, hgd, rfl⟩ := List.mem_map.mp h
  rw [GeneData.get_gene, List.find?_isSome]
  exact ⟨gd, hgd, by simp⟩

theorem processWindow_spec {tes : TransposonData} {gene : GeneDatum} {g_idx : ℕ}
    {w2i : ℤ → Option ℕ} {s s' : OverlapSink} {w : ℤ}
    (h : OverlapData.processWindow tes gene g_idx w2i s w = some s') :
    ∃ lv rv wi, Overlap.left gene tes w = some lv ∧
      Overlap.right gene tes w = some rv ∧ w2i w = some wi ∧
      s' = { s with left := writeLR s.left g_idx wi lv,
                    right := writeLR s.right g_idx wi rv } := by
  rw [OverlapData.processWindow] at h
  rw [Option.bind_eq_some] at h
  obtain ⟨lv, hl, h⟩ := h
  rw [Option.bind_eq_some] at h
  obtain ⟨rv, hr, h⟩ := h
  rw [Option.bind_eq_some] at h
  obtain ⟨wi, hwi, h⟩ := h
  exact ⟨lv, rv, wi, hl, hr, hwi, (Option.some.inj h).symm⟩

theorem processWindow_isSome {tes : TransposonData} {gene : GeneDatum}
    {w2i : ℤ → Option ℕ} {w : ℤ} (g_idx : ℕ) (s : OverlapSink)
    (hl : (Overlap.left gene tes w).isSome = true)
    (hr : (Overlap.right gene tes w).isSome = true)
    (hwi : (w2i w).isSome = true) :
    ∃ s', OverlapData.processWindow tes gene g_idx w2i s w = some s' := by
  obtain ⟨lv, hl⟩ := Option.isSome_iff_exists.mp hl
  obtain ⟨rv, hr⟩ := Option.isSome_iff_exists.mp hr
  obtain ⟨wi, hwi⟩ := Option.isSome_iff_exists.mp hwi
  exact ⟨_, by rw [OverlapData.processWindow, hl, hr, hwi]; rfl⟩

theorem processWindows_some {tes : TransposonData} {gene : GeneDatum}
    {g_idx : ℕ} {w2i : ℤ → Option ℕ} {ws : List ℤ}
    (hker : ∀ w ∈ ws, (Overlap.left gene tes w).isSome = true ∧
      (Overlap.right gene tes w).isSome = true ∧ (w2i w).isSome = true) :
    ∀ s, ∃ s', OverlapData.processWindows tes gene g_idx w2i s ws = some s' := by
  induction ws with
  | nil => exact fun s => ⟨s, rfl⟩
  | cons w ws ih =>
    intro s
    obtain ⟨hl, hr, hwi⟩ := hker w (List.mem_cons_self w ws)
    obtain ⟨s₁, hs₁⟩ := processWindow_isSome g_idx s hl hr hwi
    obtain ⟨s', hs'⟩ := ih (fun w hw => hker w (List.mem_cons_of_mem _ hw)) s₁
    refine ⟨s', ?_⟩
    rw [OverlapData.processWindows, hs₁, Option.some_bind, hs']

theorem processWindows_frame {tes : TransposonData} {gene : GeneDatum}
    {g_idx : ℕ} {w2i : ℤ → Option ℕ} {ws : List ℤ} {s s' : OverlapSink}
    (h : OverlapData.processWindows tes gene g_idx w2i s ws = some s') :
    s'.nGenes = s.nGenes ∧ s'.nTes = s.nTes ∧ s'.nWin = s.nWin ∧
      s'.intra = s.intra ∧
      (∀ g w, g ≠ g_idx → s'.left g w = s.left g w ∧ s'.right g w = s.right g w) ∧
      (∀ wi, (∀ w ∈ ws, w2i w ≠ some wi) →
        s'.left g_idx wi = s.left g_idx wi ∧ s'.right g_idx wi = s.right g_idx wi) := by
  induction ws generalizing s with
  | nil =>
    rw [OverlapData.processWindows] at h
    cases Option.some.inj h
    exact ⟨rfl, rfl, rfl, rfl, fun _ _ _ => ⟨rfl, rfl⟩, fun _ _ => ⟨rfl, rfl⟩⟩
  | cons w ws ih =>
    rw [OverlapData.processWindows, Option.bind_eq_some] at h
    obtain ⟨s₁, hstep, h⟩ := h
    obtain ⟨lv, rv, wi, hl, hr, hwi, rfl⟩ := processWindow_spec hstep
    obtain ⟨d1, d2, d3, di, hfg, hfw⟩ := ih h
    refine ⟨d1, d2, d3, di, ?_, ?_⟩
    · intro g w' hg
      obtain ⟨e1, e2⟩ := hfg g w' hg
      rw [e1, e2]
      simp [writeLR, hg]
    · intro wi' hnot
      obtain ⟨e1, e2⟩ := hfw wi' (fun w' hw' => hnot w' (List.mem_cons_of_mem _ hw'))
      rw [e1, e2]
      have hne : ¬ (wi' = wi) := fun hEq =>
        hnot w (List.mem_cons_self w ws) (hEq ▸ hwi)
      simp [writeLR, hne]

theorem processWindows_write {tes : TransposonData} {gene : GeneDatum}
    {g_idx : ℕ} {w2i : ℤ → Option ℕ} {ws : List ℤ} {s s' : OverlapSink}
    (hwinj : ∀ w w' i, w2i w = some i → w2i w' = some i → w = w')
    (h : OverlapData.processWindows tes gene g_idx w2i s ws = some s') :
    ∀ w ∈ ws, ∀ wi, w2i w = some wi →
      s'.left g_idx wi = Overlap.left gene tes w ∧
        s'.right g_idx wi = Overlap.right gene tes w := by
  induction ws generalizing s with
  | nil => intro w hw; cases hw
  | cons v ws ih =>
    rw [OverlapData.processWindows, Option.bind_eq_some] at h
    obtain ⟨s₁, hstep, h⟩ := h
    obtain ⟨lv, rv, wiv, hl, hr, hwiv, rfl⟩ := processWindow_spec hstep
    intro w hw wi hwi
    by_cases hmem : w ∈ ws
    · exact ih h w hmem wi hwi
    · have hwv : w = v := by
        cases List.mem_cons.mp hw with
        | inl h' => exact h'
        | inr h' => exact absurd h' hmem
      subst hwv
      have hwiEq : wi = wiv := by
        rw [hwi] at hwiv
        exact Option.some.inj hwiv
      subst hwiEq
      have hnone : ∀ w' ∈ ws, w2i w' ≠ some wi := by
        intro w' hw' hEq
        exact hmem ((hwinj w w' wi hwi hEq) ▸ hw')
      obtain ⟨_, _, _, _, _, hfw⟩ := processWindows_frame h
      obtain ⟨e1, e2⟩ := hfw wi hnone
      rw [e1, e2, hl, hr]
      constructor <;> simp [writeLR]

theorem processGene_spec {genes : GeneData} {tes : TransposonData}
    {ws : List ℤ} {g2i : String → Option ℕ} {w2i : ℤ → Option ℕ}
    {s s' : OverlapSink} {n : String}
    (h : OverlapData.processGene genes tes ws g2i w2i s n = some s') :
    ∃ gd gi iv, GeneData.get_gene genes n = some gd ∧ g2i n = some gi ∧
      Overlap.intra gd tes = some iv ∧
      OverlapData.processWindows tes gd gi w2i
        { s with intra := writeI s.intra gi iv } ws = some s' := by
  rw [OverlapData.processGene] at h
  rw [Option.bind_eq_some] at h
  obtain ⟨gd, hgd, h⟩ := h
  rw [Option.bind_eq_some] at h
  obtain ⟨gi, hgi, h⟩ := h
  rw [Option.bind_eq_some] at h
  obtain ⟨iv, hiv, h⟩ := h
  exact ⟨gd, gi, iv, hgd, hgi, hiv, h⟩

theorem processGenes_some {genes : GeneData} {tes : TransposonData}
    {ws : List ℤ} {g2i : String → Option ℕ} {w2i : ℤ → Option ℕ}
    {ns : List String}
    (Hlen : tes.starts.length = tes.stops.length)
    (hns : ∀ n ∈ ns, (GeneData.get_gene genes n).isSome = true ∧
      (g2i n).isSome = true)
    (hws : ∀ w ∈ ws, (w2i w).isSome = true) :
    ∀ s, ∃ s', OverlapData.processGenes genes tes ws g2i w2i s ns = some s' := by
  induction ns with
  | nil => exact fun s => ⟨s, rfl⟩
  | cons n ns ih =>
    intro s
    obtain ⟨hg, hgi⟩ := hns n (List.mem_cons_self n ns)
    obtain ⟨gd, hgd⟩ := Option.isSome_iff_exists.mp hg
    obtain ⟨gi, hgiv⟩ := Option.isSome_iff_exists.mp hgi
    obtain ⟨s₁, hs₁⟩ := processWindows_some
      (fun w hw => ⟨left_isSome gd tes w Hlen, right_isSome gd tes w Hlen, hws w hw⟩)
      { s with intra := writeI s.intra gi (Overlap.intra gd tes).iget }
    obtain ⟨s', hs'⟩ := ih (fun n' hn' => hns n' (List.mem_cons_of_mem _ hn')) s₁
    refine ⟨s', ?_⟩
    rw [OverlapData.processGenes, OverlapData.processGene, hgd, Option.some_bind,
      hgiv, Option.some_bind]
    obtain ⟨iv, hiv⟩ := Option.isSome_iff_exists.mp (intra_isSome gd tes Hlen)
    rw [hiv, Option.some_bind]
    have higet : (Overlap.intra gd tes).iget = iv := by rw [hiv]
    rw [higet] at hs₁
    rw [hs₁, Option.some_bind]
    exact hs'

theorem processGenes_frame {genes : GeneData} {tes : TransposonData}
    {ws : List ℤ} {g2i : String → Option ℕ} {w2i : ℤ → Option ℕ}
    {ns : List String} {s s' : OverlapSink}
    (h : OverlapData.processGenes genes tes ws g2i w2i s ns = some s') :
    s'.nGenes = s.nGenes ∧ s'.nTes = s.nTes ∧ s'.nWin = s.nWin ∧
      (∀ i, (∀ n ∈ ns, g2i n ≠ some i) →
        s'.intra i = s.intra i ∧
          ∀ wi, s'.left i wi = s.left i wi ∧ s'.right i wi = s.right i wi) := by
  induction ns generalizing s with
  | nil =>
    rw [OverlapData.processGenes] at h
    cases Option.some.inj h
    exact ⟨rfl, rfl, rfl, fun _ _ => ⟨rfl, fun _ => ⟨rfl, rfl⟩⟩⟩
  | cons n ns ih =>
    rw [OverlapData.processGenes, Option.bind_eq_some] at h
    obtain ⟨s₁, hstep, h⟩ := h
    obtain ⟨gd, gi, iv, hgd, hgi, hiv, hwins⟩ := processGene_spec hstep
    obtain ⟨d1, d2, d3, di, hfg, _⟩ := processWindows_frame hwins
    obtain ⟨e1, e2, e3, hfr⟩ := ih h
    refine ⟨by rw [e1, d1], by rw [e2, d2], by rw [e3, d3], ?_⟩
    intro i hnot
    have hgin : gi ≠ i := fun hEq =>
      hnot n (List.mem_cons_self n ns) (hEq ▸ hgi)
    obtain ⟨f1, f2⟩ := hfr i (fun n' hn' => hnot n' (List.mem_cons_of_mem _ hn'))
    have hne : ¬ (i = gi) := fun hEq => hgin hEq.symm
    constructor
    · rw [f1, di]
      simp [writeI, hne]
    · intro wi
      obtain ⟨g1, g2⟩ := hfg i wi (fun hEq => hgin hEq.symm)
      obtain ⟨h1, h2⟩ := f2 wi
      rw [h1, h2, g1, g2]
      exact ⟨rfl, rfl⟩

theorem processGenes_write {genes : GeneData} {tes : TransposonData}
    {ws : List ℤ} {g2i : String → Option ℕ} {w2i : ℤ → Option ℕ}
    {ns : List String} {s s' : OverlapSink}
    (hginj : ∀ a b i, g2i a = some i → g2i b = some i → a = b)
    (hwinj : ∀ w w' i, w2i w = some i → w2i w' = some i → w = w')
    (h : OverlapData.processGenes genes tes ws g2i w2i s ns = some s') :
    ∀ n ∈ ns, ∀ gi, g2i n = some gi →
      ∃ gd, GeneData.get_gene genes n = some gd ∧
        s'.intra gi = Overlap.intra gd tes ∧
        ∀ w ∈ ws, ∀ wi, w2i w = some wi →
          s'.left gi wi = Overlap.left gd tes w ∧
            s'.right gi wi = Overlap.right gd tes w := by
  induction ns generalizing s with
  | nil => intro n hn; cases hn
  | cons m ns ih =>
    rw [OverlapData.processGenes, Option.bind_eq_some] at h
    obtain ⟨s₁, hstep, h⟩ := h
    obtain ⟨gd, gim, iv, hgd, hgim, hiv, hwins⟩ := processGene_spec hstep
    intro n hn gi hgi
    by_cases hmem : n ∈ ns
    · exact ih h n hmem gi hgi
    · have hnm : n = m := by
        cases List.mem_cons.mp hn with
        | inl h' => exact h'
        | inr h' => exact absurd h' hmem
      subst hnm
      have hgiEq : gi = gim := by
        rw [hgi] at hgim
        exact Option.some.inj hgim
      subst hgiEq
      refine ⟨gd, hgd, ?_, ?_⟩
      · have hnone : ∀ n' ∈ ns, g2i n' ≠ some gi := by
          intro n' hn' hEq
          exact hmem ((hginj n n' gi hgi hEq) ▸ hn')
        obtain ⟨_, _, _, hfr⟩ := processGenes_frame h
        obtain ⟨f1, _⟩ := hfr gi hnone
        obtain ⟨_, _, _, di, _, _⟩ := processWindows_frame hwins
        rw [f1, di, hiv]
        simp [writeI]
      · intro w hw wi hwi
        have hwrite := processWindows_write hwinj hwins w hw wi hwi
        have hnone : ∀ n' ∈ ns, g2i n' ≠ some gi := by
          intro n' hn' hEq
          exact hmem ((hginj n n' gi hgi hEq) ▸ hn')
        obtain ⟨_, _, _, hfr⟩ := processGenes_frame h
        obtain ⟨_, f2⟩ := hfr gi hnone
        obtain ⟨h1, h2⟩ := f2 wi
        rw [h1, h2]
        exact hwrite

theorem mem_filter_gene_names {req avail : List String} {n : String} :
    n ∈ OverlapData._filter_gene_names req avail ↔ n ∈ req ∧ n ∈ avail := by
  rw [OverlapData._filter_gene_names, List.mem_filter]
  simp

theorem map_gene_isSome {l : List String} {a : String} (h : a ∈ l) :
    (OverlapData._map_gene_names_2_indices l a).isSome = true := by
  rw [map_gene_names_eq_lastOcc]
  exact lastOcc_isSome.mpr h

theorem map_windows_isSome {l : List ℤ} {a : ℤ} (h : a ∈ l) :
    (OverlapData._map_windows_2_indices l a).isSome = true := by
  rw [map_windows_eq_lastOcc]
  exact lastOcc_isSome.mpr h

theorem map_gene_inj {l : List String} {a b : String} {i : ℕ}
    (ha : OverlapData._map_gene_names_2_indices l a = some i)
    (hb : OverlapData._map_gene_names_2_indices l b = some i) : a = b := by
  rw [map_gene_names_eq_lastOcc] at ha hb
  exact lastOcc_inj ha hb

theorem map_windows_inj {l : List ℤ} {a b : ℤ} {i : ℕ}
    (ha : OverlapData._map_windows_2_indices l a = some i)
    (hb : OverlapData._map_windows_2_indices l b = some i) : a = b := by
  rw [map_windows_eq_lastOcc] at ha hb
  exact lastOcc_inj ha hb

/-- Master characterisation of one completed `calculate` call: it succeeds
whenever the TE arrays have equal length, allocates the dimensions from the
filtered lists, leaves every row outside the image of the gene index map
unwritten, and holds, at each mapped index, the kernel results of the mapped
gene/window. -/
theorem calculate_spec (genes : GeneData) (tes : TransposonData)
    (windows : List ℤ) (gene_names : List String)
    (Hlen : tes.starts.length = tes.stops.length) :
    ∃ st, OverlapData.calculate genes tes windows gene_names = some st ∧
      st.nGenes =
        (OverlapData._filter_gene_names gene_names (GeneData.names genes)).length ∧
      st.nTes = tes.number_elements ∧
      st.nWin = (OverlapData._filter_windows windows).length ∧
      (∀ i, (∀ n ∈ OverlapData._filter_gene_names gene_names (GeneData.names genes),
          OverlapData._map_gene_names_2_indices
            (OverlapData._filter_gene_names gene_names (GeneData.names genes)) n ≠
              some i) →
        st.intra i = none ∧ ∀ wi, st.left i wi = none ∧ st.right i wi = none) ∧
      (∀ n ∈ OverlapData._filter_gene_names gene_names (GeneData.names genes),
        ∀ gi, OverlapData._map_gene_names_2_indices
            (OverlapData._filter_gene_names gene_names (GeneData.names genes)) n =
              some gi →
          ∃ gd, GeneData.get_gene genes n = some gd ∧
            st.intra gi = Overlap.intra gd tes ∧
            ∀ w ∈ OverlapData._filter_windows windows,
              ∀ wi, OverlapData._map_windows_2_indices
                  (OverlapData._filter_windows windows) w = some wi →
                st.left gi wi = Overlap.left gd tes w ∧
                  st.right gi wi = Overlap.right gd tes w) := by
  have hns : ∀ n ∈ OverlapData._filter_gene_names gene_names (GeneData.names genes),
      (GeneData.get_gene genes n).isSome = true ∧
        ((OverlapData._map_gene_names_2_indices
          (OverlapData._filter_gene_names gene_names (GeneData.names genes))) n).isSome =
            true :=
    fun n hn => ⟨get_gene_isSome (mem_filter_gene_names.mp hn).2, map_gene_isSome hn⟩
  have hws : ∀ w ∈ OverlapData._filter_windows windows,
      ((OverlapData._map_windows_2_indices (OverlapData._filter_windows windows)) w).isSome =
        true :=
    fun w hw => map_windows_isSome hw
  obtain ⟨st, hst⟩ := processGenes_some Hlen hns hws
    { nGenes := (OverlapData._filter_gene_names gene_names (GeneData.names genes)).length
      nTes := tes.number_elements
      nWin := (OverlapData._filter_windows windows).length
      left := fun _ _ => none
      right := fun _ _ => none
      intra := fun _ => none }
  obtain ⟨d1, d2, d3, hframe⟩ := processGenes_frame hst
  refine ⟨st, hst, d1, d2, d3, ?_, ?_⟩
  · intro i hi
    obtain ⟨f1, f2⟩ := hframe i hi
    exact ⟨f1, fun wi => (f2 wi)⟩
  · exact processGenes_write (fun a b i ha hb => map_gene_inj ha hb)
      (fun a b i ha hb => map_windows_inj ha hb) hst

/-! ### Claim C5 -/

/-- C5 counterexample: requesting the valid gene name `"a"` twice yields a
store allocated with `n_genes = 2`, while the deduplicated filtered count is
`1` — duplicate requested names do enlarge the dimensions. -/
theorem store_shape_duplicates_cex :
    (OverlapData.calculate [⟨"a", 100, 200⟩] ⟨[180], [220], [41]⟩ [50]
        ["a", "a"]).map OverlapSink.nGenes = some 2 ∧
      ((OverlapData._filter_gene_names ["a", "a"]
        (GeneData.names [⟨"a", 100, 200⟩])).dedup).length = 1 := by
  constructor
  · rfl
  · rfl

/-- C5 (amended): after filtering, the three datasets are allocated with
shapes `(n_genes, n_windows, n_tes)` for left/right and `(n_genes, n_tes)`
for intra, where `n_genes` and `n_windows` are the lengths of the *filtered*
request lists — duplicates included, no deduplication is performed. -/
theorem store_shape_filtered_counts (genes : GeneData) (tes : TransposonData)
    (windows : List ℤ) (gene_names : List String)
    (Hlen : tes.starts.length = tes.stops.length) :
    ∃ st, OverlapData.calculate genes tes windows gene_names = some st ∧
      st.nGenes =
        (OverlapData._filter_gene_names gene_names (GeneData.names genes)).length ∧
      st.nWin = (OverlapData._filter_windows windows).length ∧
      st.nTes = tes.number_elements := by
  obtain ⟨st, hst, d1, d2, d3, _, _⟩ := calculate_spec genes tes windows gene_names Hlen
  exact ⟨st, hst, d1, d3, d2⟩

/-- Witness for C5 (amended) at a concrete duplicated request. -/
theorem store_shape_filtered_counts_witness :
    ∃ st, OverlapData.calculate [⟨"a", 100, 200⟩] ⟨[180], [220], [41]⟩ [50]
        ["a", "a"] = some st ∧
      st.nGenes = (OverlapData._filter_gene_names ["a", "a"]
        (GeneData.names [⟨"a", 100, 200⟩])).length ∧
      st.nWin = (OverlapData._filter_windows [50]).length ∧
      st.nTes = (⟨[180], [220], [41]⟩ : TransposonData).number_elements :=
  store_shape_filtered_counts [⟨"a", 100, 200⟩] ⟨[180], [220], [41]⟩ [50]
    ["a", "a"] (by decide)

/-! ### Claim C6 -/

/-- C6: after a completed `calculate` call, for every filtered gene name `g`
and filtered window `w`, the stored slices at `(gene_idx g, window_idx w)`
equal a fresh direct computation of the overlap kernels for the gene named
`g`, the full TE collection, and `w`. -/
theorem stored_slices_match_fresh_kernels (genes : GeneData)
    (tes : TransposonData) (windows : List ℤ) (gene_names : List String)
    (Hlen : tes.starts.length = tes.stops.length) :
    ∃ st, OverlapData.calculate genes tes windows gene_names = some st ∧
      ∀ g ∈ OverlapData._filter_gene_names gene_names (GeneData.names genes),
        ∀ w ∈ OverlapData._filter_windows windows,
          ∃ gi wi gd,
            OverlapData._map_gene_names_2_indices
              (OverlapData._filter_gene_names gene_names (GeneData.names genes)) g =
                some gi ∧
            OverlapData._map_windows_2_indices
              (OverlapData._filter_windows windows) w = some wi ∧
            GeneData.get_gene genes g = some gd ∧
            st.left gi wi = Overlap.left gd tes w ∧
            st.right gi wi = Overlap.right gd tes w ∧
            st.intra gi = Overlap.intra gd tes := by
  obtain ⟨st, hst, _, _, _, _, hwrite⟩ := calculate_spec genes tes windows gene_names Hlen
  refine ⟨st, hst, ?_⟩
  intro g hg w hw
  obtain ⟨gi, hgi⟩ := Option.isSome_iff_exists.mp (map_gene_isSome hg)
  obtain ⟨wi, hwi⟩ := Option.isSome_iff_exists.mp (map_windows_isSome hw)
  obtain ⟨gd, hgd, hintra, hlr⟩ := hwrite g hg gi hgi
  obtain ⟨hleft, hright⟩ := hlr w hw wi hwi
  exact ⟨gi, wi, gd, hgi, hwi, hgd, hleft, hright, hintra⟩

/-- Witness for C6 at the spec's concrete scenario. -/
theorem stored_slices_match_fresh_kernels_witness :
    ∃ st, OverlapData.calculate [⟨"a", 100, 200⟩] ⟨[180], [220], [41]⟩ [50]
        ["a"] = some st ∧
      ∀ g ∈ OverlapData._filter_gene_names ["a"]
          (GeneData.names [⟨"a", 100, 200⟩]),
        ∀ w ∈ OverlapData._filter_windows [50],
          ∃ gi wi gd,
            OverlapData._map_gene_names_2_indices
              (OverlapData._filter_gene_names ["a"]
                (GeneData.names [⟨"a", 100, 200⟩])) g = some gi ∧
            OverlapData._map_windows_2_indices
              (OverlapData._filter_windows [50]) w = some wi ∧
            GeneData.get_gene [⟨"a", 100, 200⟩] g = some gd ∧
            st.left gi wi = Overlap.left gd ⟨[180], [220], [41]⟩ w ∧
            st.right gi wi = Overlap.right gd ⟨[180], [220], [41]⟩ w ∧
            st.intra gi = Overlap.intra gd ⟨[180], [220], [41]⟩ :=
  stored_slices_match_fresh_kernels [⟨"a", 100, 200⟩] ⟨[180], [220], [41]⟩
    [50] ["a"] (by decide)

/-! ### Claim C9 -/

/-- C9 counterexample: a window of `0` is not positive, hence an "invalid
entry" in the claim's sense, yet adding it to a valid request changes the
result: it survives the filter, enters the window index map, and enlarges the
window dimension, so the superset run differs from the valid-subset run. -/
theorem zero_window_changes_result_cex :
    ¬ ((0 : ℤ) > 0) ∧
      OverlapData._map_windows_2_indices (OverlapData._filter_windows [50, 0]) 0 =
        some 1 ∧
      OverlapData._map_windows_2_indices (OverlapData._filter_windows [50]) 0 =
        none ∧
      OverlapData.calculate [⟨"a", 100, 200⟩] ⟨[180], [220], [41]⟩ [50, 0] ["a"] ≠
        OverlapData.calculate [⟨"a", 100, 200⟩] ⟨[180], [220], [41]⟩ [50] ["a"] := by
  refine ⟨by decide, rfl, rfl, ?_⟩
  intro hEq
  have h2 := congrArg (Option.map OverlapSink.nWin) hEq
  have e1 : (OverlapData.calculate [⟨"a", 100, 200⟩] ⟨[180], [220], [41]⟩
      [50, 0] ["a"]).map OverlapSink.nWin = some 2 := rfl
  have e2 : (OverlapData.calculate [⟨"a", 100, 200⟩] ⟨[180], [220], [41]⟩
      [50] ["a"]).map OverlapSink.nWin = some 1 := rfl
  rw [e1, e2] at h2
  exact absurd (Option.some.inj h2) (by decide)

/-- C9 (amended): adding entries that the filters reject — gene names absent
from the collection and *strictly negative* windows — to a request whose
names are all present and whose windows are all `≥ 0` leaves `calculate`
(index maps, dimensions and tensors) unchanged; a window of `0`, although not
positive, is kept by the filter and does change the result. -/
theorem filtering_idempotence_valid (genes : GeneData) (tes : TransposonData)
    (ws ws' : List ℤ) (ns ns' : List String)
    (h₁ : ∀ n ∈ ns, n ∈ GeneData.names genes)
    (h₂ : ∀ w ∈ ws, 0 ≤ w)
    (h₃ : OverlapData._filter_gene_names ns' (GeneData.names genes) = ns)
    (h₄ : OverlapData._filter_windows ws' = ws) :
    OverlapData.calculate genes tes ws' ns' =
      OverlapData.calculate genes tes ws ns := by
  have hself₁ : OverlapData._filter_gene_names ns (GeneData.names genes) = ns := by
    rw [OverlapData._filter_gene_names]
    exact List.filter_eq_self.mpr (fun a ha => by simpa using h₁ a ha)
  have hself₂ : OverlapData._filter_windows ws = ws := by
    rw [OverlapData._filter_windows]
    refine List.filter_eq_self.mpr (fun a ha => ?_)
    have := h₂ a ha
    simp
    omega
  rw [OverlapData.calculate, OverlapData.calculate, h₃, h₄, hself₁, hself₂]

/-- Witness for C9 (amended): adding the absent name `"zz"` and the negative
window `-5` to a valid request leaves the result unchanged. -/
theorem filtering_idempotence_valid_witness :
    OverlapData.calculate [⟨"a", 100, 200⟩] ⟨[180], [220], [41]⟩ [50, -5]
        ["a", "zz"] =
      OverlapData.calculate [⟨"a", 100, 200⟩] ⟨[180], [220], [41]⟩ [50] ["a"] :=
  filtering_idempotence_valid [⟨"a", 100, 200⟩] ⟨[180], [220], [41]⟩
    [50] [50, -5] ["a"] ["a", "zz"] (by decide) (by decide) (by decide) (by decide)

/-! ### Claim C10 -/

/-- C10: when a valid gene name occurs more than once in the filtered list,
the gene index map binds it to the index of its *last* occurrence (never an
earlier one), `calculate` leaves the rows at earlier-occurrence indices
entirely unwritten, and writes all of that gene's intra/left/right results at
the last-occurrence index. -/
theorem duplicate_names_last_write_wins (genes : GeneData)
    (tes : TransposonData) (windows : List ℤ) (gene_names : List String)
    (Hlen : tes.starts.length = tes.stops.length) :
    ∃ st, OverlapData.calculate genes tes windows gene_names = some st ∧
      ∀ i j g, i < j →
        (OverlapData._filter_gene_names gene_names (GeneData.names genes)).get? i =
          some g →
        (OverlapData._filter_gene_names gene_names (GeneData.names genes)).get? j =
          some g →
        OverlapData._map_gene_names_2_indices
            (OverlapData._filter_gene_names gene_names (GeneData.names genes)) g ≠
          some i ∧
        st.intra i = none ∧
        (∀ wi, st.left i wi = none ∧ st.right i wi = none) ∧
        ∃ k gd, OverlapData._map_gene_names_2_indices
            (OverlapData._filter_gene_names gene_names (GeneData.names genes)) g =
              some k ∧
          j ≤ k ∧
          (OverlapData._filter_gene_names gene_names (GeneData.names genes)).get? k =
            some g ∧
          (∀ m, k < m →
            (OverlapData._filter_gene_names gene_names (GeneData.names genes)).get? m ≠
              some g) ∧
          GeneData.get_gene genes g = some gd ∧
          st.intra k = Overlap.intra gd tes ∧
          ∀ w ∈ OverlapData._filter_windows windows,
            ∃ wi, OverlapData._map_windows_2_indices
                (OverlapData._filter_windows windows) w = some wi ∧
              st.left k wi = Overlap.left gd tes w ∧
              st.right k wi = Overlap.right gd tes w := by
  obtain ⟨st, hst, _, _, _, hframe, hwrite⟩ :=
    calculate_spec genes tes windows gene_names Hlen
  refine ⟨st, hst, ?_⟩
  intro i j g hij hgi hgj
  obtain ⟨k, hk, hjk⟩ := get_le_lastOcc hgj
  have hmapk : OverlapData._map_gene_names_2_indices
      (OverlapData._filter_gene_names gene_names (GeneData.names genes)) g = some k := by
    rw [map_gene_names_eq_lastOcc]
    exact hk
  have hmapne : OverlapData._map_gene_names_2_indices
      (OverlapData._filter_gene_names gene_names (GeneData.names genes)) g ≠ some i := by
    rw [hmapk]
    intro hEq
    have hki : k = i := Option.some.inj hEq
    exact lastOcc_last hk j (by omega) hgj
  have hrow : ∀ n ∈ OverlapData._filter_gene_names gene_names (GeneData.names genes),
      OverlapData._map_gene_names_2_indices
        (OverlapData._filter_gene_names gene_names (GeneData.names genes)) n ≠
          some i := by
    intro n hn hEq
    have hni : n = g := by
      rw [map_gene_names_eq_lastOcc] at hEq
      have := lastOcc_get hEq
      rw [hgi] at this
      exact (Option.some.inj this).symm
    exact hmapne (hni ▸ hEq)
  obtain ⟨hintra_none, hlr_none⟩ := hframe i hrow
  have hgmem : g ∈ OverlapData._filter_gene_names gene_names (GeneData.names genes) :=
    List.get?_mem hgj
  obtain ⟨gd, hgd, hintra, hlr⟩ := hwrite g hgmem k hmapk
  refine ⟨hmapne, hintra_none, hlr_none, k, gd, hmapk, hjk,
    lastOcc_get hk, lastOcc_last hk, hgd, hintra, ?_⟩
  intro w hw
  obtain ⟨wi, hwi⟩ := Option.isSome_iff_exists.mp (map_windows_isSome hw)
  obtain ⟨hl, hr⟩ := hlr w hw wi hwi
  exact ⟨wi, hwi, hl, hr⟩

/-- Witness for C10 at a concrete duplicated request: the name `"a"`
requested twice. -/
theorem duplicate_names_last_write_wins_witness :
    ∃ st, OverlapData.calculate [⟨"a", 100, 200⟩] ⟨[180], [220], [41]⟩ [50]
        ["a", "a"] = some st ∧
      ∀ i j g, i < j →
        (OverlapData._filter_gene_names ["a", "a"]
          (GeneData.names [⟨"a", 100, 200⟩])).get? i = some g →
        (OverlapData._filter_gene_names ["a", "a"]
          (GeneData.names [⟨"a", 100, 200⟩])).get? j = some g →
        OverlapData._map_gene_names_2_indices
            (OverlapData._filter_gene_names ["a", "a"]
              (GeneData.names [⟨"a", 100, 200⟩])) g ≠ some i ∧
        st.intra i = none ∧
        (∀ wi, st.left i wi = none ∧ st.right i wi = none) ∧
        ∃ k gd, OverlapData._map_gene_names_2_indices
            (OverlapData._filter_gene_names ["a", "a"]
              (GeneData.names [⟨"a", 100, 200⟩])) g = some k ∧
          j ≤ k ∧
          (OverlapData._filter_gene_names ["a", "a"]
            (GeneData.names [⟨"a", 100, 200⟩])).get? k = some g ∧
          (∀ m, k < m →
            (OverlapData._filter_gene_names ["a", "a"]
              (GeneData.names [⟨"a", 100, 200⟩])).get? m ≠ some g) ∧
          GeneData.get_gene [⟨"a", 100, 200⟩] g = some gd ∧
          st.intra k = Overlap.intra gd ⟨[180], [220], [41]⟩ ∧
          ∀ w ∈ OverlapData._filter_windows [50],
            ∃ wi, OverlapData._map_windows_2_indices
                (OverlapData._filter_windows [50]) w = some wi ∧
              st.left k wi = Overlap.left gd ⟨[180], [220], [41]⟩ w ∧
              st.right k wi = Overlap.right gd ⟨[180], [220], [41]⟩ w :=
  duplicate_names_last_write_wins [⟨"a", 100, 200⟩] ⟨[180], [220], [41]⟩
    [50] ["a", "a"] (by decide)

/-- Witness for C8 at the spec's concrete scenario. -/
theorem overlap_values_nonneg_witness :
    (⟨[180], [220], [41]⟩ : TransposonData).starts.length =
        (⟨[180], [220], [41]⟩ : TransposonData).stops.length ∧
      (∀ l, Overlap.left ⟨"g", 100, 200⟩ ⟨[180], [220], [41]⟩ 50 = some l →
        ∀ x ∈ l, 0 ≤ x) :=
  ⟨by decide,
    (overlap_values_nonneg ⟨"g", 100, 200⟩ ⟨[180], [220], [41]⟩ 50 (by decide)).1⟩

end TeDensity
